import Mathlib

/-!
# Verification of the Go distributed task queue core

A shallow embedding of the job-lifecycle engine of the task queue:
the job record (`internal/queue/queue.go`), the Redis-backed store
operations (`internal/queue/redis_queue.go`), the worker loop with its
retry controller and execution supervisor (`StartWorkerWithRedis`,
`processJobWithTimeout`), the delayed-job poller
(`StartDelayedJobPoller`), and the admin dead-letter handlers
(`internal/http/admin.go`).

Modelling conventions:
* Redis list payloads are JSON-marshalled `Job` values; a stored payload
  is modelled as `Option Job`, where `none` stands for a malformed
  (non-deserializable) record.  `json.Marshal` is deterministic and
  injective on the job fields, so payload (string) equality coincides
  with `Job` equality for well-formed entries.
* Wall-clock instants and Redis sorted-set scores (unix seconds) are
  `Nat`; measured durations (Go `float64` seconds) are `ℚ`.
* Go `int` retry fields are modelled as `Nat`: every value the program
  ever stores in them is non-negative (they start at 0, are incremented,
  or reset to 0).
* The Redis client is assumed available (transient store errors retry in
  their own loops and are invisible to the state transitions modelled
  here); sorted-set members are unique, stated as a `Nodup` hypothesis
  where a proof needs it.
-/

namespace TaskQueue

/-- The `Job` struct of `internal/queue/queue.go` (lines 12–20). -/
structure Job where
  id : Int
  name : String
  retries : Nat
  maxRetry : Nat
  status : String
  startedAt : Nat
  endedAt : Nat
deriving DecidableEq, Repr

/-- The Go zero value of `Job`, which is what `json.Unmarshal` leaves in
a freshly declared `var job queue.Job` when the payload is malformed. -/
def Job.zero : Job :=
  { id := 0, name := "", retries := 0, maxRetry := 0, status := ""
    startedAt := 0, endedAt := 0 }

/-- A stored Redis payload: `some j` is the JSON marshalling of `j`,
`none` a malformed record. -/
abbrev Entry := Option Job

/-- Reading a payload the way the admin handlers do: `json.Unmarshal`
with the error ignored, leaving the zero value on a malformed record. -/
def decodeEntry (e : Entry) : Job := e.getD Job.zero

/-- The shared Redis state: `job_queue` (head = most recently LPushed),
`delayed_jobs` (sorted-set members with unix-second scores),
`dead_letter_queue`, the `job_status:<id>` keys, the `job:<id>` hashes,
`job_history`, and the two process gauges the store operations set. -/
structure Store where
  jobQueue : List Entry
  delayedJobs : List (Entry × Nat)
  deadLetter : List Entry
  jobStatus : Int → Option String
  records : Int → Option Job
  history : List Int
  queueDepthGauge : Nat
  dlqSizeGauge : Nat

/-- `RedisQueue.SetJobStatus` (redis_queue.go lines 139–142). -/
def setJobStatus (id : Int) (status : String) (st : Store) : Store :=
  { st with jobStatus := fun i => if i = id then some status else st.jobStatus i }

/-- `RedisQueue.SaveJob` (redis_queue.go lines 149–165): writes the
`job:<id>` hash and, for terminal statuses, LPushes the ID onto
`job_history`. -/
def saveJob (job : Job) (st : Store) : Store :=
  let st1 : Store :=
    { st with records := fun i => if i = job.id then some job else st.records i }
  if job.status = "SUCCESS" ∨ job.status = "FAILED" then
    { st1 with history := job.id :: st1.history }
  else st1

/-- `RedisQueue.Enqueue` (redis_queue.go lines 78–88): sets the
queue-depth gauge from the pre-push LLen, then LPushes the payload. -/
def redisEnqueue (job : Job) (st : Store) : Store :=
  { st with
    queueDepthGauge := st.jobQueue.length
    jobQueue := some job :: st.jobQueue }

/-- Redis `ZADD`: update the score of an existing member, otherwise add
the member with the given score. -/
def zadd (mem : Entry) (score : Nat) : List (Entry × Nat) → List (Entry × Nat)
  | [] => [(mem, score)]
  | (m, sc) :: rest =>
      if m = mem then (m, score) :: rest else (m, sc) :: zadd mem score rest

/-- Redis `ZREM`: remove a member from the sorted set. -/
def zrem (mem : Entry) (l : List (Entry × Nat)) : List (Entry × Nat) :=
  l.filter (fun p => p.1 ≠ mem)

/-- `RedisQueue.EnqueueWithDelay` (redis_queue.go lines 63–76): ZADD to
`delayed_jobs` with score `now + delay` (unix seconds). -/
def enqueueWithDelay (nowT : Nat) (job : Job) (delaySec : Nat) (st : Store) : Store :=
  { st with delayedJobs := zadd (some job) (nowT + delaySec) st.delayedJobs }

/-- `RedisQueue.MoveToDLQ` (redis_queue.go lines 103–110): LPush to
`dead_letter_queue`, then set the DLQ-size gauge from the new LLen. -/
def moveToDLQ (job : Job) (st : Store) : Store :=
  { st with
    deadLetter := some job :: st.deadLetter
    dlqSizeGauge := (some job :: st.deadLetter).length }

/-! ## Execution supervisor (`processJobWithTimeout`, queue.go lines 90–137) -/

/-- The process-wide duration accumulator: `Queue.totalDuration` /
`Queue.totalJobs` (queue.go lines 22–27) together with the Prometheus
duration metrics updated alongside them (`JobProcessingTime` histogram
samples, `JobProcessingTimeLatest` and `JobProcessingTimeAverage`
gauges). -/
structure DurAcc where
  totalDuration : ℚ
  totalJobs : Nat
  latest : ℚ
  average : ℚ
  samples : List ℚ
deriving DecidableEq, Repr

/-- The outcome of one supervised attempt. -/
inductive Outcome
  | success
  | failure
  | timeout
deriving DecidableEq, Repr

/-- The `select` in `processJobWithTimeout`: the worker goroutine sends
its result after `workTime`; `time.After` fires at `timeout`.  The first
ready channel wins; when both are ready at the same instant Go picks one
at random, modelled by `tiebreak` (`true` = the result channel wins). -/
def superviseOutcome (workTime timeout : ℚ) (workSuccess tiebreak : Bool) : Outcome :=
  if workTime < timeout ∨ (workTime = timeout ∧ tiebreak) then
    if workSuccess then .success else .failure
  else .timeout

/-- The boolean `processJobWithTimeout` returns for each outcome:
`true` on success, `false` on failure and on timeout. -/
def outcomeToBool : Outcome → Bool
  | .success => true
  | .failure => false
  | .timeout => false

/-- The duration-sample bookkeeping both `select` branches perform
(queue.go lines 109–115 and 126–132): accumulate the sample, bump the
attempt count, publish latest and running average, observe the sample. -/
def observeDuration (d : ℚ) (a : DurAcc) : DurAcc :=
  { totalDuration := a.totalDuration + d
    totalJobs := a.totalJobs + 1
    latest := d
    average := (a.totalDuration + d) / (a.totalJobs + 1)
    samples := d :: a.samples }

/-- `processJobWithTimeout` (queue.go lines 90–137): the measured
duration is the work time when the result arrives in time and the
timeout when the timer fires first; the returned flag is `true` only on
success. -/
def processJobWithTimeout (workTime : ℚ) (workSuccess tiebreak : Bool)
    (timeout : ℚ) (a : DurAcc) : Bool × DurAcc :=
  let o := superviseOutcome workTime timeout workSuccess tiebreak
  (outcomeToBool o, observeDuration (if o = .timeout then timeout else workTime) a)

/-! ## Worker loop and retry controller (`StartWorkerWithRedis`, queue.go lines 45–88) -/

/-- The Prometheus job counters touched by the worker loop
(`JobsCompleted`, `JobsFailed`). -/
structure Counters where
  jobsCompleted : Nat
  jobsFailed : Nat
deriving DecidableEq, Repr

/-- `time.Duration(5*(1<<job.Retries)) * time.Second`, in seconds
(queue.go line 72). -/
def backoffSeconds (retries : Nat) : Nat := 5 * (1 <<< retries)

/-- The dequeue-side bookkeeping of the worker loop (queue.go lines
55–58): mark the job PROCESSING with a start timestamp and persist. -/
def markProcessing (tStart : Nat) (job : Job) (st : Store) : Job × Store :=
  let j : Job := { job with status := "PROCESSING", startedAt := tStart }
  (j, saveJob j (setJobStatus j.id "PROCESSING" st))

/-- The retry controller: the three-way branch after
`processJobWithTimeout` returns (queue.go lines 64–85).  `tNow` is the
wall clock at the branch (used for the end timestamp and as the base of
the delayed score).  Note the order in the retry branch: the payload
handed to the delayed path carries the incremented retry count but still
status PROCESSING, because `job.Status = "RETRYING"` is assigned only
after `EnqueueWithDelay`. -/
def handleOutcome (tNow : Nat) (success : Bool) (job : Job) (st : Store)
    (c : Counters) : Job × Store × Counters :=
  if success then
    let j : Job := { job with status := "SUCCESS", endedAt := tNow }
    (j, saveJob j (setJobStatus j.id "SUCCESS" st),
      { c with jobsCompleted := c.jobsCompleted + 1 })
  else if job.retries < job.maxRetry then
    let j1 : Job := { job with retries := job.retries + 1 }
    let st1 := enqueueWithDelay tNow j1 (backoffSeconds j1.retries) st
    let j2 : Job := { j1 with status := "RETRYING" }
    (j2, saveJob j2 (setJobStatus j2.id "RETRYING" st1), c)
  else
    let j : Job := { job with status := "FAILED", endedAt := tNow }
    (j, saveJob j (setJobStatus j.id "FAILED" (moveToDLQ j st)),
      { c with jobsFailed := c.jobsFailed + 1 })

/-- One full iteration of a worker's dispatch loop after a successful
dequeue (queue.go lines 55–85): mark PROCESSING, run the supervised
attempt, hand the outcome to the retry controller. -/
def workerIteration (tStart tEnd : Nat) (workTime : ℚ) (workSuccess tiebreak : Bool)
    (timeout : ℚ) (job : Job) (st : Store) (a : DurAcc) (c : Counters) :
    Job × Store × DurAcc × Counters :=
  let p1 := markProcessing tStart job st
  let p2 := processJobWithTimeout workTime workSuccess tiebreak timeout a
  let p3 := handleOutcome tEnd p2.1 p1.1 p1.2 c
  (p3.1, p3.2.1, p2.2, p3.2.2)

/-! ## Delayed-job poller (`StartDelayedJobPoller`, redis_queue.go lines 112–137) -/

/-- `ZRANGEBYSCORE delayed_jobs 0 now`: the members whose due time is
now or in the past (scores are `Nat`, so the min bound 0 is vacuous). -/
def dueJobs (now : Nat) (st : Store) : List Entry :=
  (st.delayedJobs.filter (fun p => p.2 ≤ now)).map Prod.fst

/-- The body of the poller's per-job loop (redis_queue.go lines
128–132): LPush the payload onto `job_queue` (a raw LPush, no gauge
update), then ZREM it from `delayed_jobs`. -/
def pollPush (e : Entry) (st : Store) : Store :=
  { st with jobQueue := e :: st.jobQueue, delayedJobs := zrem e st.delayedJobs }

/-- Iterating the per-job loop over the snapshot of due members. -/
def pollLoop : List Entry → Store → Store
  | [], st => st
  | e :: rest, st => pollLoop rest (pollPush e st)

/-- One wake of the delayed-job poller: read the due members, then move
each to the main queue. -/
def pollOnce (now : Nat) (st : Store) : Store :=
  pollLoop (dueJobs now st) st

/-! ## Listing operations (redis_queue.go lines 167–210) -/

/-- `LRANGE key 0 (n-1)`: for `n = 0` the stop index is `-1`, i.e. the
whole list; otherwise the first `n` elements. -/
def lrangeTake (n : Nat) (l : List α) : List α :=
  if n = 0 then l else l.take n

/-- The unmarshal loop of `ListDLQ` (redis_queue.go lines 202–209): a
record that fails to deserialize is skipped, the rest are kept in
order. -/
def listDLQLoop : List Entry → List Job
  | [] => []
  | some j :: rest => j :: listDLQLoop rest
  | none :: rest => listDLQLoop rest

/-- `RedisQueue.ListDLQ` (redis_queue.go lines 197–210).  The only
error path is the store read itself (`LRange`), modelled as available;
deserialization failures never produce an error. -/
def ListDLQ (n : Nat) (st : Store) : Except String (List Job) :=
  .ok (listDLQLoop (lrangeTake n st.deadLetter))

/-- The per-ID loop of `ListRecentJobs` (redis_queue.go lines 174–193):
an ID whose `job:<id>` hash is missing or empty is skipped; a present
hash is parsed back into a job (field errors are ignored by the Go
code, so a present record always yields a job). -/
def listRecentLoop (records : Int → Option Job) : List Int → List Job
  | [] => []
  | i :: rest =>
      match records i with
      | some j => j :: listRecentLoop records rest
      | none => listRecentLoop records rest

/-- `RedisQueue.ListRecentJobs` (redis_queue.go lines 167–195). -/
def ListRecentJobs (n : Nat) (st : Store) : Except String (List Job) :=
  .ok (listRecentLoop st.records (lrangeTake n st.history))

/-! ## Admin dead-letter handlers (`RegisterAdminActions`, admin.go lines 107–173) -/

/-- The HTTP responses the two handlers can produce. -/
inductive AdminResp
  | badRequest
  | notFound
  | seeOther
deriving DecidableEq, Repr

/-- The scan both handlers perform over `LRANGE dead_letter_queue 0 -1`:
unmarshal each payload (errors ignored) and return the first raw entry
whose decoded ID matches. -/
def findDLQ (id : Int) : List Entry → Option Entry
  | [] => none
  | e :: rest => if (decodeEntry e).id = id then some e else findDLQ id rest

/-- `LREM key 1 raw`: remove the first occurrence of the payload,
scanning from the head. -/
def lremFirst (x : Entry) : List Entry → List Entry
  | [] => []
  | y :: ys => if y = x then ys else y :: lremFirst x ys

/-- The `/dlq/retry` handler (admin.go lines 109–142): find the record
by ID; if found, LREM one matching payload, reset its retry count to 0,
`RedisQueue.Enqueue` it, refresh the DLQ-size gauge, and redirect;
otherwise 404 with no mutation.  The handler never touches the job's
status field or its `job_status:<id>` key. -/
def dlqRetry (id : Int) (st : Store) : AdminResp × Store :=
  match findDLQ id st.deadLetter with
  | none => (.notFound, st)
  | some raw =>
      let st1 : Store := { st with deadLetter := lremFirst raw st.deadLetter }
      let j : Job := { decodeEntry raw with retries := 0 }
      let st2 := redisEnqueue j st1
      (.seeOther, { st2 with dlqSizeGauge := st2.deadLetter.length })

/-- The `/dlq/delete` handler (admin.go lines 145–172): find the record
by ID; if found, LREM one matching payload and refresh the DLQ-size
gauge; otherwise 404 with no mutation. -/
def dlqDelete (id : Int) (st : Store) : AdminResp × Store :=
  match findDLQ id st.deadLetter with
  | none => (.notFound, st)
  | some raw =>
      let st1 : Store := { st with deadLetter := lremFirst raw st.deadLetter }
      (.seeOther, { st1 with dlqSizeGauge := st1.deadLetter.length })

/-- The full in-process system state: the shared store plus the
process-wide duration accumulator and job counters. -/
structure SysState where
  store : Store
  acc : DurAcc
  counters : Counters

/-- `processJobWithTimeout` as it acts on the whole system state: the
function body (queue.go lines 90–137) makes no store calls, receives the
job by value, and reads and writes only the duration accumulator. -/
def superviseFull (workTime : ℚ) (workSuccess tiebreak : Bool) (timeout : ℚ)
    (s : SysState) : Bool × SysState :=
  let p := processJobWithTimeout workTime workSuccess tiebreak timeout s.acc
  (p.1, { s with acc := p.2 })

/-! ## Sample data -/

/-- A store with every collection empty. -/
def emptyStore : Store :=
  { jobQueue := [], delayedJobs := [], deadLetter := [],
    jobStatus := fun _ => none, records := fun _ => none, history := [],
    queueDepthGauge := 0, dlqSizeGauge := 0 }

/-- The job of the spec's end-to-end scenario "Y": max retries 2,
exhausted, dead-lettered at status FAILED. -/
def jobY : Job :=
  { id := 2, name := "Y", retries := 2, maxRetry := 2, status := "FAILED",
    startedAt := 0, endedAt := 0 }

/-- A freshly enqueued job "X" with the default max retry count 3. -/
def jobX : Job :=
  { id := 1, name := "X", retries := 0, maxRetry := 3, status := "PROCESSING",
    startedAt := 0, endedAt := 0 }

/-- A store whose dead-letter collection holds exactly the record of
`jobY`, as left by `moveToDLQ`. -/
def storeY : Store :=
  { emptyStore with
    deadLetter := [some jobY]
    dlqSizeGauge := 1
    jobStatus := fun i => if i = 2 then some "FAILED" else none }

/-- A duration accumulator with no completed attempts. -/
def accZero : DurAcc :=
  { totalDuration := 0, totalJobs := 0, latest := 0, average := 0, samples := [] }

/-- Counters at zero. -/
def countersZero : Counters := { jobsCompleted := 0, jobsFailed := 0 }

/-- An initial full system state. -/
def sysZero : SysState := { store := emptyStore, acc := accZero, counters := countersZero }

/-! ## Helper lemmas -/

theorem backoffSeconds_eq (r : Nat) : backoffSeconds r = 5 * 2 ^ r := by
  simp [backoffSeconds, Nat.shiftLeft_eq]

theorem zadd_self_mem (mem : Entry) (score : Nat) (l : List (Entry × Nat)) :
    (mem, score) ∈ zadd mem score l := by
  induction l with
  | nil => simp [zadd]
  | cons p rest ih =>
      obtain ⟨m, sc⟩ := p
      by_cases h : m = mem
      · subst h
        simp [zadd]
      · simp only [zadd, if_neg h, List.mem_cons]
        exact Or.inr ih

theorem zadd_of_not_mem {mem : Entry} {l : List (Entry × Nat)} (score : Nat)
    (h : ∀ sc, (mem, sc) ∉ l) : zadd mem score l = l ++ [(mem, score)] := by
  induction l with
  | nil => rfl
  | cons p rest ih =>
      obtain ⟨m, sc⟩ := p
      have hm : m ≠ mem := by
        intro he
        exact h sc (by simp [he])
      simp only [zadd, if_neg hm, List.cons_append, List.cons.injEq, true_and]
      exact ih fun sc' hsc' => h sc' (List.mem_cons_of_mem _ hsc')

theorem findDLQ_eq_none {id : Int} {l : List Entry}
    (h : ∀ e ∈ l, (decodeEntry e).id ≠ id) : findDLQ id l = none := by
  induction l with
  | nil => rfl
  | cons e rest ih =>
      simp only [findDLQ, if_neg (h e (List.mem_cons_self e rest))]
      exact ih fun x hx => h x (List.mem_cons_of_mem e hx)

theorem findDLQ_spec {id : Int} {l : List Entry} {e : Entry}
    (h : findDLQ id l = some e) : e ∈ l ∧ (decodeEntry e).id = id := by
  induction l with
  | nil => simp [findDLQ] at h
  | cons x rest ih =>
      by_cases hx : (decodeEntry x).id = id
      · simp only [findDLQ, if_pos hx, Option.some.injEq] at h
        subst h
        exact ⟨List.mem_cons_self _ _, hx⟩
      · simp only [findDLQ, if_neg hx] at h
        obtain ⟨h1, h2⟩ := ih h
        exact ⟨List.mem_cons_of_mem _ h1, h2⟩

theorem findDLQ_of_mem {id : Int} {l : List Entry} {j : Job}
    (hj : some j ∈ l) (hid : j.id = id) : ∃ e, findDLQ id l = some e := by
  induction l with
  | nil => cases hj
  | cons x rest ih =>
      by_cases hx : (decodeEntry x).id = id
      · exact ⟨x, by simp [findDLQ, hx]⟩
      · rcases List.mem_cons.mp hj with h | h
        · exact absurd (by simp [← h, decodeEntry, hid]) hx
        · obtain ⟨e, he⟩ := ih h
          exact ⟨e, by simp [findDLQ, hx, he]⟩

theorem lremFirst_length {x : Entry} {l : List Entry} (h : x ∈ l) :
    (lremFirst x l).length + 1 = l.length := by
  induction l with
  | nil => cases h
  | cons y ys ih =>
      by_cases hy : y = x
      · simp [lremFirst, hy]
      · have hx : x ∈ ys := by
          rcases List.mem_cons.mp h with h1 | h1
          · exact absurd h1.symm hy
          · exact h1
        simp [lremFirst, hy, ih hx]

theorem lremFirst_count {x : Entry} {l : List Entry} (h : x ∈ l) :
    (lremFirst x l).count x + 1 = l.count x := by
  induction l with
  | nil => cases h
  | cons y ys ih =>
      by_cases hy : y = x
      · subst hy
        simp [lremFirst, List.count_cons]
      · have hx : x ∈ ys := by
          rcases List.mem_cons.mp h with h1 | h1
          · exact absurd h1.symm hy
          · exact h1
        have hne : ¬(y == x) = true := by simpa using hy
        simp [lremFirst, hy, List.count_cons, hne, ih hx]

theorem pollLoop_jobQueue (l : List Entry) (st : Store) :
    (pollLoop l st).jobQueue = l.reverse ++ st.jobQueue := by
  induction l generalizing st with
  | nil => simp [pollLoop]
  | cons e rest ih =>
      simp [pollLoop, pollPush, ih, List.reverse_cons, List.append_assoc]

theorem pollLoop_delayed (l : List Entry) (st : Store) :
    (pollLoop l st).delayedJobs
      = st.delayedJobs.filter (fun p => decide (p.1 ∉ l)) := by
  induction l generalizing st with
  | nil => simp [pollLoop]
  | cons e rest ih =>
      rw [pollLoop, ih]
      show (zrem e st.delayedJobs).filter _ = _
      rw [zrem, List.filter_filter]
      refine List.filter_congr fun p _ => ?_
      by_cases h1 : p.1 = e <;> by_cases h2 : p.1 ∈ rest <;>
        simp [h1, h2]

theorem pollLoop_frame (l : List Entry) (st : Store) :
    (pollLoop l st).deadLetter = st.deadLetter
      ∧ (pollLoop l st).jobStatus = st.jobStatus
      ∧ (pollLoop l st).records = st.records
      ∧ (pollLoop l st).history = st.history
      ∧ (pollLoop l st).queueDepthGauge = st.queueDepthGauge
      ∧ (pollLoop l st).dlqSizeGauge = st.dlqSizeGauge := by
  induction l generalizing st with
  | nil => exact ⟨rfl, rfl, rfl, rfl, rfl, rfl⟩
  | cons e rest ih => exact ih (pollPush e st)

theorem listDLQLoop_eq_reduceOption (l : List Entry) :
    listDLQLoop l = l.reduceOption := by
  induction l with
  | nil => rfl
  | cons e rest ih => cases e <;> simp [listDLQLoop, ih, List.reduceOption_cons_of_some]

theorem listDLQLoop_skips_none (xs ys : List Entry) :
    listDLQLoop (xs ++ none :: ys) = listDLQLoop (xs ++ ys) := by
  induction xs with
  | nil => rfl
  | cons e rest ih => cases e <;> simp [listDLQLoop, ih]

theorem listRecentLoop_eq_filterMap (records : Int → Option Job) (l : List Int) :
    listRecentLoop records l = l.filterMap records := by
  induction l with
  | nil => rfl
  | cons i rest ih =>
      cases h : records i <;> simp [listRecentLoop, h, ih, List.filterMap_cons]

theorem listRecentLoop_skips_missing {records : Int → Option Job} {i : Int}
    (h : records i = none) (xs ys : List Int) :
    listRecentLoop records (xs ++ i :: ys) = listRecentLoop records (xs ++ ys) := by
  induction xs with
  | nil => simp [listRecentLoop, h]
  | cons x rest ih => cases hx : records x <;> simp [listRecentLoop, hx, ih]

theorem handleOutcome_retries (tNow : Nat) (success : Bool) (job : Job)
    (st : Store) (c : Counters) :
    (handleOutcome tNow success job st c).1.retries
        = (if success = false ∧ job.retries < job.maxRetry
            then job.retries + 1 else job.retries)
      ∧ (handleOutcome tNow success job st c).1.maxRetry = job.maxRetry := by
  cases success <;> by_cases h : job.retries < job.maxRetry <;>
    simp [handleOutcome, h]

theorem saveJob_jobStatus (job : Job) (st : Store) :
    (saveJob job st).jobStatus = st.jobStatus := by
  simp only [saveJob]
  split <;> rfl

theorem saveJob_delayedJobs (job : Job) (st : Store) :
    (saveJob job st).delayedJobs = st.delayedJobs := by
  simp only [saveJob]
  split <;> rfl

theorem saveJob_deadLetter (job : Job) (st : Store) :
    (saveJob job st).deadLetter = st.deadLetter := by
  simp only [saveJob]
  split <;> rfl

theorem superviseOutcome_timeout_of_late {workTime timeout : ℚ}
    (hlt : timeout < workTime) (workSuccess tiebreak : Bool) :
    superviseOutcome workTime timeout workSuccess tiebreak = .timeout := by
  rw [superviseOutcome, if_neg]
  push_neg
  refine ⟨hlt.le, fun he => ?_⟩
  rw [he] at hlt
  exact absurd hlt (lt_irrefl _)

/-! ## Claim theorems -/

/-- C2: the post-execution handling implements exactly the three-case
Retry Controller state machine: on success, status SUCCESS with end
timestamp set and the success counter incremented; on failure/timeout
with retry count below the maximum, the retry count is incremented, the
job is placed on the delayed path, and status becomes RETRYING; on
failure/timeout with retry count equal to the maximum, the job is moved
to the dead-letter collection, status FAILED, end timestamp set, and
the failure counter incremented. -/
theorem retry_controller_three_cases (tNow : Nat) (job : Job) (st : Store)
    (c : Counters) :
    ((handleOutcome tNow true job st c).1.status = "SUCCESS"
      ∧ (handleOutcome tNow true job st c).1.endedAt = tNow
      ∧ (handleOutcome tNow true job st c).2.2.jobsCompleted = c.jobsCompleted + 1
      ∧ (handleOutcome tNow true job st c).2.2.jobsFailed = c.jobsFailed
      ∧ (handleOutcome tNow true job st c).2.1.deadLetter = st.deadLetter
      ∧ (handleOutcome tNow true job st c).2.1.delayedJobs = st.delayedJobs
      ∧ (handleOutcome tNow true job st c).2.1.jobStatus job.id = some "SUCCESS")
    ∧ (job.retries < job.maxRetry →
        (handleOutcome tNow false job st c).1.retries = job.retries + 1
        ∧ (handleOutcome tNow false job st c).1.status = "RETRYING"
        ∧ (some { job with retries := job.retries + 1 },
            tNow + backoffSeconds (job.retries + 1))
              ∈ (handleOutcome tNow false job st c).2.1.delayedJobs
        ∧ (handleOutcome tNow false job st c).2.1.deadLetter = st.deadLetter
        ∧ (handleOutcome tNow false job st c).2.2 = c
        ∧ (handleOutcome tNow false job st c).2.1.jobStatus job.id = some "RETRYING")
    ∧ (job.retries = job.maxRetry →
        (handleOutcome tNow false job st c).1.status = "FAILED"
        ∧ (handleOutcome tNow false job st c).1.endedAt = tNow
        ∧ (handleOutcome tNow false job st c).2.1.deadLetter
            = some { job with status := "FAILED", endedAt := tNow } :: st.deadLetter
        ∧ (handleOutcome tNow false job st c).2.2.jobsFailed = c.jobsFailed + 1
        ∧ (handleOutcome tNow false job st c).2.2.jobsCompleted = c.jobsCompleted
        ∧ (handleOutcome tNow false job st c).2.1.delayedJobs = st.delayedJobs
        ∧ (handleOutcome tNow false job st c).2.1.jobStatus job.id = some "FAILED") := by
  refine ⟨?_, fun h => ?_, fun h => ?_⟩
  · simp [handleOutcome, saveJob_jobStatus, saveJob_deadLetter, saveJob_delayedJobs,
      setJobStatus]
  · refine ⟨?_, ?_, ?_, ?_, ?_, ?_⟩ <;>
      simp [handleOutcome, h, saveJob_jobStatus, saveJob_deadLetter,
        saveJob_delayedJobs, setJobStatus, enqueueWithDelay, zadd_self_mem]
  · have h' : ¬ job.retries < job.maxRetry := by omega
    refine ⟨?_, ?_, ?_, ?_, ?_, ?_, ?_⟩ <;>
      simp [handleOutcome, h', saveJob_jobStatus, saveJob_deadLetter,
        saveJob_delayedJobs, setJobStatus, moveToDLQ]

/-- C2 witness: the three branches evaluated at concrete inputs: a
successful attempt on job X, a failed attempt on job X (0 retries of
max 3), and a failed attempt on job Y (2 retries of max 2). -/
theorem retry_controller_three_cases_witness :
    (handleOutcome 9 true jobX emptyStore countersZero).1.status = "SUCCESS"
    ∧ (handleOutcome 9 false jobX emptyStore countersZero).1.retries = 1
    ∧ (some { jobX with retries := 1 }, 9 + backoffSeconds 1)
        ∈ (handleOutcome 9 false jobX emptyStore countersZero).2.1.delayedJobs
    ∧ (handleOutcome 9 false jobY emptyStore countersZero).2.1.deadLetter
        = [some { jobY with status := "FAILED", endedAt := 9 }] := by
  have h := retry_controller_three_cases 9 jobX emptyStore countersZero
  have hY := retry_controller_three_cases 9 jobY emptyStore countersZero
  have hx : jobX.retries < jobX.maxRetry := by decide
  have hy : jobY.retries = jobY.maxRetry := by decide
  exact ⟨h.1.1, (h.2.1 hx).1, (h.2.1 hx).2.2.1, (hY.2.2 hy).2.2.1⟩

/-- C3: the backoff delay scheduled before a job's k-th retry (k ≥ 1)
is `base * 2^k` seconds with base 5, computed from the post-increment
retry count: the job entering its k-th retry has retry count `k - 1`,
the count is incremented to `k`, and the delayed entry is scored
`now + 5 * 2^k`.  In particular the first retry waits `5*2 = 10`
seconds, not `5*1`. -/
theorem backoff_post_increment (k tNow : Nat) (job : Job) (st : Store)
    (c : Counters) (hk : job.retries + 1 = k)
    (hlt : job.retries < job.maxRetry) :
    1 ≤ k
    ∧ backoffSeconds k = 5 * 2 ^ k
    ∧ (some { job with retries := k }, tNow + 5 * 2 ^ k)
        ∈ (handleOutcome tNow false job st c).2.1.delayedJobs := by
  subst hk
  refine ⟨Nat.le_add_left 1 _, backoffSeconds_eq _, ?_⟩
  have hmem := zadd_self_mem (some { job with retries := job.retries + 1 })
      (tNow + backoffSeconds (job.retries + 1)) st.delayedJobs
  rw [backoffSeconds_eq] at hmem
  simpa [handleOutcome, hlt, saveJob_delayedJobs, setJobStatus,
    enqueueWithDelay, backoffSeconds_eq] using hmem

/-- C3 witness: job X at retry count 0 fails; its first retry is
scheduled with delay `5 * 2^1 = 10` seconds. -/
theorem backoff_post_increment_witness :
    jobX.retries + 1 = 1
    ∧ jobX.retries < jobX.maxRetry
    ∧ backoffSeconds 1 = 10
    ∧ (some { jobX with retries := 1 }, 100 + 10)
        ∈ (handleOutcome 100 false jobX emptyStore countersZero).2.1.delayedJobs := by
  have h := backoff_post_increment 1 100 jobX emptyStore countersZero rfl (by decide)
  exact ⟨rfl, by decide, rfl, h.2.2⟩

/-- C5: an attempt that ends in timeout produces exactly the same Retry
Controller transition as one that ends in explicit failure: the
supervisor returns the same boolean `false` for both outcomes, so the
post-execution branch — retry-count change, resulting status, and
destination collection — is literally identical. -/
theorem timeout_failure_identical (wt1 wt2 to1 to2 : ℚ) (ws1 ws2 tb1 tb2 : Bool)
    (tNow : Nat) (job : Job) (st : Store) (c : Counters) (a1 a2 : DurAcc)
    (h1 : superviseOutcome wt1 to1 ws1 tb1 = .timeout)
    (h2 : superviseOutcome wt2 to2 ws2 tb2 = .failure) :
    (processJobWithTimeout wt1 ws1 tb1 to1 a1).1 = false
    ∧ (processJobWithTimeout wt2 ws2 tb2 to2 a2).1 = false
    ∧ handleOutcome tNow (processJobWithTimeout wt1 ws1 tb1 to1 a1).1 job st c
        = handleOutcome tNow (processJobWithTimeout wt2 ws2 tb2 to2 a2).1 job st c := by
  have e1 : (processJobWithTimeout wt1 ws1 tb1 to1 a1).1 = false := by
    simp [processJobWithTimeout, h1, outcomeToBool]
  have e2 : (processJobWithTimeout wt2 ws2 tb2 to2 a2).1 = false := by
    simp [processJobWithTimeout, h2, outcomeToBool]
  exact ⟨e1, e2, by rw [e1, e2]⟩

/-- C5 witness: a 5-second work item against a 3-second timeout (a
timeout) and a 1-second explicit failure lead the controller to the
same transition on job X. -/
theorem timeout_failure_identical_witness :
    superviseOutcome 5 3 true true = .timeout
    ∧ superviseOutcome 1 3 false true = .failure
    ∧ handleOutcome 9 (processJobWithTimeout 5 true true 3 accZero).1 jobX
          emptyStore countersZero
        = handleOutcome 9 (processJobWithTimeout 1 false true 3 accZero).1 jobX
            emptyStore countersZero := by
  have h1 : superviseOutcome (5 : ℚ) 3 true true = .timeout := by
    norm_num [superviseOutcome]
  have h2 : superviseOutcome (1 : ℚ) 3 false true = .failure := by
    norm_num [superviseOutcome]
  exact ⟨h1, h2,
    (timeout_failure_identical 5 1 3 3 true false true true 9 jobX emptyStore
      countersZero accZero accZero h1 h2).2.2⟩

/-- C9: each supervisor invocation observes exactly one of
{success, failure, timeout}; once the timeout path is taken the returned
flag is false and the store is untouched, and a spuriously slow success
(work time past the timeout) behaves identically tmo a slow failure —
the late result can never overwrite the job record state. -/
theorem supervisor_single_outcome (wt tmo : ℚ) (ws tb : Bool) (s : SysState) :
    ((if superviseOutcome wt tmo ws tb = .success then 1 else 0)
      + (if superviseOutcome wt tmo ws tb = .failure then 1 else 0)
      + (if superviseOutcome wt tmo ws tb = .timeout then 1 else 0) = 1)
    ∧ (superviseOutcome wt tmo ws tb = .timeout →
        (superviseFull wt ws tb tmo s).1 = false
        ∧ (superviseFull wt ws tb tmo s).2.store = s.store)
    ∧ (tmo < wt → superviseOutcome wt tmo ws tb = .timeout)
    ∧ (tmo < wt →
        superviseFull wt true tb tmo s = superviseFull wt false tb tmo s) := by
  refine ⟨?_, fun h => ⟨?_, rfl⟩, fun hlt => superviseOutcome_timeout_of_late hlt ws tb,
    fun hlt => ?_⟩
  · cases h : superviseOutcome wt tmo ws tb <;> simp [h]
  · simp [superviseFull, processJobWithTimeout, h, outcomeToBool]
  · simp [superviseFull, processJobWithTimeout,
      superviseOutcome_timeout_of_late hlt true tb,
      superviseOutcome_timeout_of_late hlt false tb]

/-- C9 witness: a 5-second successful work item against the 3-second
timeout: the supervisor returns false and behaves exactly as if the
work had failed. -/
theorem supervisor_single_outcome_witness :
    (3 : ℚ) < 5
    ∧ (superviseFull 5 true true 3 sysZero).1 = false
    ∧ superviseFull 5 true true 3 sysZero = superviseFull 5 false true 3 sysZero := by
  have h := supervisor_single_outcome 5 3 true true sysZero
  have hlt : (3 : ℚ) < 5 := by norm_num
  exact ⟨hlt, (h.2.1 (h.2.2.1 hlt)).1, h.2.2.2 hlt⟩

/-- C10: the supervisor's frame: it leaves the whole store — every
queue collection, every job record, every status key — and the job
counters unchanged; the only state it mutates is the duration
accumulator (total duration, attempt count, latest/average gauges and
the histogram samples), which it updates on every outcome, the timeout
included (with the measured duration: the work time when the result
arrived in time, the timeout otherwise). -/
theorem supervisor_frame (wt tmo : ℚ) (ws tb : Bool) (s : SysState) :
    (superviseFull wt ws tb tmo s).2.store = s.store
    ∧ (superviseFull wt ws tb tmo s).2.counters = s.counters
    ∧ (superviseFull wt ws tb tmo s).2.acc
        = observeDuration
            (if superviseOutcome wt tmo ws tb = .timeout then tmo else wt) s.acc
    ∧ (superviseFull wt ws tb tmo s).2.acc.totalJobs = s.acc.totalJobs + 1
    ∧ (superviseFull wt ws tb tmo s).2.acc.latest
        = (if superviseOutcome wt tmo ws tb = .timeout then tmo else wt)
    ∧ (superviseFull wt ws tb tmo s).2.acc.totalDuration
        = s.acc.totalDuration
            + (if superviseOutcome wt tmo ws tb = .timeout then tmo else wt)
    ∧ (superviseFull wt ws tb tmo s).2.acc.average
        = (s.acc.totalDuration
            + (if superviseOutcome wt tmo ws tb = .timeout then tmo else wt))
          / (s.acc.totalJobs + 1) := by
  exact ⟨rfl, rfl, rfl, rfl, rfl, rfl, rfl⟩

/-- C6: for an ID not present in the dead-letter collection (all of
whose records are well-formed), both Dead-Letter Retry and Delete
return NotFound and leave the whole state — dead-letter collection,
main queue, every job record and status key, the gauges — unchanged. -/
theorem dlq_absent_id_no_mutation (id : Int) (st : Store)
    (hwf : ∀ e ∈ st.deadLetter, e ≠ none)
    (hid : ∀ j : Job, some j ∈ st.deadLetter → j.id ≠ id) :
    dlqRetry id st = (.notFound, st) ∧ dlqDelete id st = (.notFound, st) := by
  have hnone : findDLQ id st.deadLetter = none := by
    refine findDLQ_eq_none fun e he => ?_
    cases e with
    | none => exact absurd rfl (hwf none he)
    | some j => exact hid j he
  constructor
  · rw [dlqRetry, hnone]
  · rw [dlqDelete, hnone]

/-- C6 witness: retrying or deleting the absent ID 7 against a
dead-letter collection holding only job Y (ID 2) mutates nothing. -/
theorem dlq_absent_id_no_mutation_witness :
    dlqRetry 7 storeY = (.notFound, storeY)
    ∧ dlqDelete 7 storeY = (.notFound, storeY) := by
  refine dlq_absent_id_no_mutation 7 storeY ?_ ?_
  · intro e he
    simp only [storeY, emptyStore] at he
    simp only [List.mem_singleton] at he
    subst he
    simp
  · intro j hj
    simp only [storeY, emptyStore, List.mem_singleton, Option.some.injEq] at hj
    subst hj
    decide

/-- C1 (amended): Dead-Letter Retry on a present ID removes exactly one
matching entry (one occurrence, even when duplicate payloads exist),
resets the record's retry count to 0 and re-submits it to the main
queue — but the re-submitted record keeps the status stored in the
dead-letter entry (FAILED for worker-dead-lettered jobs) and the
per-job status key is not updated: nothing is set to QUEUED. -/
theorem dlq_retry_spec (id : Int) (st : Store) (j0 : Job)
    (hj : some j0 ∈ st.deadLetter) (hid : j0.id = id) :
    ∃ raw : Entry,
      findDLQ id st.deadLetter = some raw
      ∧ raw ∈ st.deadLetter
      ∧ (decodeEntry raw).id = id
      ∧ dlqRetry id st
          = (.seeOther,
             { st with
               deadLetter := lremFirst raw st.deadLetter
               queueDepthGauge := st.jobQueue.length
               jobQueue := some { decodeEntry raw with retries := 0 } :: st.jobQueue
               dlqSizeGauge := (lremFirst raw st.deadLetter).length })
      ∧ (lremFirst raw st.deadLetter).length + 1 = st.deadLetter.length
      ∧ (lremFirst raw st.deadLetter).count raw + 1 = st.deadLetter.count raw
      ∧ ({ decodeEntry raw with retries := 0 } : Job).retries = 0
      ∧ ({ decodeEntry raw with retries := 0 } : Job).status = (decodeEntry raw).status
      ∧ (dlqRetry id st).2.jobStatus = st.jobStatus := by
  obtain ⟨raw, hraw⟩ := findDLQ_of_mem hj hid
  obtain ⟨hmem, hdec⟩ := findDLQ_spec hraw
  refine ⟨raw, hraw, hmem, hdec, ?_, lremFirst_length hmem, lremFirst_count hmem,
    rfl, rfl, ?_⟩
  · rw [dlqRetry, hraw]
    rfl
  · rw [dlqRetry, hraw]
    rfl

/-- C1 counterexample: retrying dead-lettered job Y (stored at status
FAILED) re-submits it to the main queue still at status FAILED, and its
status key still reads FAILED — not QUEUED as the claim states. -/
theorem dlq_retry_status_cex :
    some jobY ∈ storeY.deadLetter
    ∧ jobY.id = 2
    ∧ (dlqRetry 2 storeY).1 = AdminResp.seeOther
    ∧ (dlqRetry 2 storeY).2.jobQueue = [some { jobY with retries := 0 }]
    ∧ ({ jobY with retries := 0 } : Job).status = "FAILED"
    ∧ (dlqRetry 2 storeY).2.jobStatus 2 = some "FAILED"
    ∧ ({ jobY with retries := 0 } : Job).status ≠ "QUEUED" := by
  refine ⟨?_, rfl, rfl, rfl, rfl, rfl, by decide⟩
  simp [storeY, emptyStore]

/-- C1 witness: retrying job Y's ID against the store holding exactly
its dead-letter record empties the collection (exactly one entry
removed) and re-queues the record. -/
theorem dlq_retry_spec_witness :
    (dlqRetry 2 storeY).1 = AdminResp.seeOther
    ∧ (dlqRetry 2 storeY).2.deadLetter.length + 1 = storeY.deadLetter.length := by
  obtain ⟨raw, h1, h2, h3, h4, h5, h6⟩ :=
    dlq_retry_spec 2 storeY jobY (by simp [storeY, emptyStore]) rfl
  rw [h4]
  exact ⟨rfl, h5⟩

/-- C4 (amended): a job's retry count never exceeds its maximum retry
count, under worker retry handling and dead-letter operations alike;
within worker retry handling it is also monotonically non-decreasing.
The dead-letter Retry operation, however, resets the count to 0 (a
decrease), after which it is again bounded by the maximum. -/
theorem retry_count_bounded (tStart tEnd : Nat) (workTime timeout : ℚ)
    (workSuccess tiebreak : Bool) (job : Job) (st st' : Store) (a : DurAcc)
    (c : Counters) (id : Int) :
    job.retries
        ≤ (workerIteration tStart tEnd workTime workSuccess tiebreak timeout
            job st a c).1.retries
    ∧ (workerIteration tStart tEnd workTime workSuccess tiebreak timeout
        job st a c).1.maxRetry = job.maxRetry
    ∧ (job.retries ≤ job.maxRetry →
        (workerIteration tStart tEnd workTime workSuccess tiebreak timeout
          job st a c).1.retries ≤ job.maxRetry)
    ∧ ((dlqRetry id st').1 = AdminResp.seeOther →
        ∃ j : Job, (dlqRetry id st').2.jobQueue = some j :: st'.jobQueue
          ∧ j.retries = 0 ∧ j.retries ≤ j.maxRetry) := by
  obtain ⟨h1, h2⟩ := handleOutcome_retries tEnd
    (processJobWithTimeout workTime workSuccess tiebreak timeout a).1
    { job with status := "PROCESSING", startedAt := tStart }
    (saveJob { job with status := "PROCESSING", startedAt := tStart }
      (setJobStatus job.id "PROCESSING" st)) c
  have hw : (workerIteration tStart tEnd workTime workSuccess tiebreak timeout
      job st a c).1
      = (handleOutcome tEnd
          (processJobWithTimeout workTime workSuccess tiebreak timeout a).1
          { job with status := "PROCESSING", startedAt := tStart }
          (saveJob { job with status := "PROCESSING", startedAt := tStart }
            (setJobStatus job.id "PROCESSING" st)) c).1 := rfl
  refine ⟨?_, ?_, ?_, ?_⟩
  · rw [hw, h1]
    split
    · exact Nat.le_succ _
    · exact Nat.le_refl _
  · rw [hw, h2]
  · intro hle
    rw [hw, h1]
    split
    · next hcond => exact Nat.succ_le_of_lt hcond.2
    · exact hle
  · intro hresp
    cases hfind : findDLQ id st'.deadLetter with
    | none =>
        rw [dlqRetry, hfind] at hresp
        cases hresp
    | some raw =>
        refine ⟨{ decodeEntry raw with retries := 0 }, ?_, rfl, Nat.zero_le _⟩
        rw [dlqRetry, hfind]
        rfl

/-- C4 counterexample: job Y sits in the dead-letter collection with
retry count 2; the dead-letter Retry operation re-queues it with retry
count 0 — the retry count decreases across a sequence of system
operations, so it is not monotonically non-decreasing once dead-letter
operations are included. -/
theorem retry_monotone_cex :
    some jobY ∈ storeY.deadLetter
    ∧ jobY.retries = 2
    ∧ (dlqRetry 2 storeY).2.jobQueue = [some { jobY with retries := 0 }]
    ∧ ({ jobY with retries := 0 } : Job).retries < jobY.retries := by
  refine ⟨?_, rfl, rfl, by decide⟩
  simp [storeY, emptyStore]

/-- C4 witness: a failing attempt on job X (0 of max 3 retries) keeps
the count within the bound, and retrying dead-lettered job Y re-queues
it with retry count 0. -/
theorem retry_count_bounded_witness :
    (workerIteration 0 9 1 false true 3 jobX emptyStore accZero
        countersZero).1.retries ≤ jobX.maxRetry
    ∧ ∃ j : Job, (dlqRetry 2 storeY).2.jobQueue = some j :: storeY.jobQueue
        ∧ j.retries = 0 ∧ j.retries ≤ j.maxRetry := by
  have h := retry_count_bounded 0 9 1 3 false true jobX emptyStore storeY accZero
    countersZero 2
  exact ⟨h.2.2.1 (by decide), h.2.2.2 rfl⟩

/-- C7: on each wake of the delayed-job poller, exactly the entries of
the delayed holding area whose due-time is now or in the past are
pushed onto the main queue and removed from the holding area (the rest
and every other collection are untouched); consequently a job scheduled
at time t0 with delay D appears in the main queue on a wake at time
`now` precisely when `now ≥ t0 + D`, i.e. only once at least D seconds
of wall-clock time have elapsed, within one poll interval of slack. -/
theorem delayed_poller_spec (now t0 delayD : Nat) (job : Job) (st : Store)
    (hnodup : (st.delayedJobs.map Prod.fst).Nodup) :
    ((pollOnce now st).delayedJobs
        = st.delayedJobs.filter (fun p => decide (¬ p.2 ≤ now))
      ∧ (pollOnce now st).jobQueue = (dueJobs now st).reverse ++ st.jobQueue
      ∧ (pollOnce now st).deadLetter = st.deadLetter
      ∧ (pollOnce now st).jobStatus = st.jobStatus
      ∧ (pollOnce now st).records = st.records)
    ∧ ((∀ sc, (some job, sc) ∉ st.delayedJobs) → some job ∉ st.jobQueue →
        (some job ∈ (pollOnce now (enqueueWithDelay t0 job delayD st)).jobQueue
          ↔ t0 + delayD ≤ now)) := by
  constructor
  · refine ⟨?_, pollLoop_jobQueue _ _, (pollLoop_frame _ _).1,
      (pollLoop_frame _ _).2.1, (pollLoop_frame _ _).2.2.1⟩
    rw [pollOnce, pollLoop_delayed]
    refine List.filter_congr fun p hp => ?_
    by_cases hle : p.2 ≤ now
    · have hmem : p.1 ∈ dueJobs now st :=
        List.mem_map.mpr ⟨p, List.mem_filter.mpr ⟨hp, by simpa using hle⟩, rfl⟩
      simp [hmem, hle]
    · have hnot : p.1 ∉ dueJobs now st := by
        intro hm
        obtain ⟨q, hq, hq1⟩ := List.mem_map.mp hm
        obtain ⟨hq2, hq3⟩ := List.mem_filter.mp hq
        have hqp : q = p := List.inj_on_of_nodup_map hnodup hq2 hp hq1
        rw [hqp] at hq3
        exact hle (by simpa using hq3)
      simp [hnot, hle]
  · intro hfresh hq
    have hdel : (enqueueWithDelay t0 job delayD st).delayedJobs
        = st.delayedJobs ++ [(some job, t0 + delayD)] := zadd_of_not_mem _ hfresh
    rw [pollOnce, pollLoop_jobQueue]
    have hjq : (enqueueWithDelay t0 job delayD st).jobQueue = st.jobQueue := rfl
    rw [hjq]
    simp only [List.mem_append, List.mem_reverse]
    constructor
    · rintro (hmem | hmem)
      · obtain ⟨q, hq', hq1⟩ := List.mem_map.mp hmem
        obtain ⟨hq2, hq3⟩ := List.mem_filter.mp hq'
        rw [dueJobs] at *
        rw [hdel] at hq2
        rcases List.mem_append.mp hq2 with hIn | hIn
        · exfalso
          obtain ⟨q1, q2⟩ := q
          simp only at hq1
          rw [hq1] at hIn
          exact hfresh q2 hIn
        · have hqe : q = (some job, t0 + delayD) := by simpa using hIn
          rw [hqe] at hq3
          simpa using hq3
      · exact absurd hmem hq
    · intro hle
      left
      refine List.mem_map.mpr
        ⟨(some job, t0 + delayD), List.mem_filter.mpr ⟨?_, by simpa using hle⟩, rfl⟩
      rw [hdel]
      simp

/-- C7 witness: a job scheduled at time 0 with delay 7 is promoted on
the wake at time 7, and is not promoted on the wake at time 6. -/
theorem delayed_poller_spec_witness :
    some jobX ∈ (pollOnce 7 (enqueueWithDelay 0 jobX 7 emptyStore)).jobQueue
    ∧ some jobX ∉ (pollOnce 6 (enqueueWithDelay 0 jobX 7 emptyStore)).jobQueue := by
  have h7 := (delayed_poller_spec 7 0 7 jobX emptyStore (by simp [emptyStore])).2
    (by simp [emptyStore]) (by simp [emptyStore])
  have h6 := (delayed_poller_spec 6 0 7 jobX emptyStore (by simp [emptyStore])).2
    (by simp [emptyStore]) (by simp [emptyStore])
  refine ⟨h7.mpr (by norm_num), fun hm => ?_⟩
  have := h6.mp hm
  omega

/-- C8: the listing operations never abort on a malformed stored
record: dead-letter listing returns exactly the well-formed records
among the first n entries (a malformed entry contributes nothing and is
skipped), and recent-history listing returns exactly the records whose
hash is present, skipping IDs whose record is missing. -/
theorem listing_skips_malformed (n : Nat) (st : Store) (xs ys : List Entry)
    (i : Int) (ids1 ids2 : List Int) (hbad : st.records i = none) :
    ListDLQ n st = .ok (List.reduceOption (lrangeTake n st.deadLetter))
    ∧ listDLQLoop (xs ++ none :: ys) = listDLQLoop (xs ++ ys)
    ∧ ListRecentJobs n st = .ok ((lrangeTake n st.history).filterMap st.records)
    ∧ listRecentLoop st.records (ids1 ++ i :: ids2)
        = listRecentLoop st.records (ids1 ++ ids2) :=
  ⟨congrArg Except.ok (listDLQLoop_eq_reduceOption _),
   listDLQLoop_skips_none xs ys,
   congrArg Except.ok (listRecentLoop_eq_filterMap _ _),
   listRecentLoop_skips_missing hbad ids1 ids2⟩

/-- C8 witness: a malformed entry between the records of jobs Y and X
is skipped by the dead-letter unmarshal loop. -/
theorem listing_skips_malformed_witness :
    storeY.records 5 = none
    ∧ listDLQLoop ([some jobY] ++ none :: [some jobX])
        = listDLQLoop ([some jobY] ++ [some jobX]) := by
  have h := listing_skips_malformed 20 storeY [some jobY] [some jobX] 5 [] [] rfl
  exact ⟨rfl, h.2.1⟩

end TaskQueue
